import Mathlib

/-!
Verification development for the unsafe-call-path static analyzer.

The definitions below are a shallow embedding of the analyzer's Rust source:

* `src/models.rs`            — data model (`VisibilityKind`, `FunctionInfo`, `PathNodeInfo`, …)
* `src/analysis/call_graph.rs` — `CallGraph` construction and the path search
  (`add_function`, `add_call`, `is_valid_path`, `is_minimal_path`,
  `convert_path_to_node_info`, `find_paths_to_unsafe`,
  `precompute_reachable_targets`, `find_valid_paths`, `dfs_find_valid_paths`)
* `src/visitors/function.rs` — the unsafe-operation detection visitor
* `src/visitors/call.rs`     — the call-edge visitor
* `src/utils.rs`             — the source beautifier
* `src/analysis/analyzer.rs` — the per-file pre-filter and orchestration

Rust `HashSet<String>` values are embedded as `List String` kept duplicate-free
by an insert-if-absent operation; `HashMap<K, V>` values are embedded as
association lists `List (K × V)` with first-match lookup and in-place update.
Membership claims proved here are iteration-order independent, which is the
only guarantee the hash containers give.

The recursive graph searches are embedded with an explicit fuel argument so
that every definition computes by kernel reduction.  The breadth-first search
of `precompute_reachable_targets` performs at most one pop per push and at
most `1 + Σ |callee list|` pushes, so `bfs_fuel` over-approximates the number
of loop iterations and the fuel-exhaustion branch is unreachable; the
depth-first search recursion is bounded by its own depth check
(`max_search_depth < depth`), so fuel `max_search_depth + 1 - depth` is
exact (theorem `dfs_fuel_indifferent` below makes this precise).
-/

/-- Function visibility, from `src/models.rs` (`VisibilityKind`). -/
inductive VisibilityKind where
  | Public
  | Crate
  | Module
  | Restricted
deriving DecidableEq

/-- Kind of a detected unsafe operation, from `src/models.rs` (`UnsafeOperationType`). -/
inductive UnsafeOperationType where
  | RawPointerDereference
  | UnsafeFunctionCall
  | UnsafeMethodCall
  | InlineAssembly
  | UnionFieldAccess
  | MutStaticAccess
  | Other (desc : String)
deriving DecidableEq

/-- A detected unsafe operation, from `src/models.rs` (`UnsafeOperation`).
`line_number` is always `none` in the visitor, mirroring the source. -/
structure UnsafeOperation where
  operation_type : UnsafeOperationType
  description : String
  code_snippet : String
  line_number : Option Nat
deriving DecidableEq

/-- Function metadata, from `src/models.rs` (`FunctionInfo`).  The fields are the
ones constructed by `src/visitors/function.rs` and consumed by
`src/analysis/call_graph.rs`. -/
structure FunctionInfo where
  name : String
  module_path : String
  visibility : VisibilityKind
  has_internal_unsafe : Bool
  is_unsafe_fn : Bool
  file_path : String
  source_code : String
  param_custom_types : List String
  return_custom_types : List String
  has_self_param : Bool
  owner_type : Option String
  unsafe_operations : List UnsafeOperation
deriving DecidableEq

/-- One node of a discovered path, from `src/models.rs` (`PathNodeInfo`), with the
fields populated by `CallGraph::convert_path_to_node_info`. -/
structure PathNodeInfo where
  full_path : String
  visibility : VisibilityKind
  source_code : String
  param_custom_types : List String
  return_custom_types : List String
deriving DecidableEq

/-- A call edge, from `src/models.rs` (`FunctionCall`). -/
structure FunctionCall where
  caller : String
  callee : String
deriving DecidableEq

/-- Embeds `HashSet::insert`: add an element to a duplicate-free list if absent. -/
def insert_set (s : List String) (x : String) : List String :=
  if x ∈ s then s else s ++ [x]

/-- Embeds `HashMap::get`: first-match lookup in an association list. -/
def lookup_assoc {α : Type} (m : List (String × α)) (k : String) : Option α :=
  (m.find? (fun pr => pr.1 == k)).map (fun pr => pr.2)

/-- Embeds `HashMap::insert`: replace the binding for `k` if present, else append it. -/
def insert_assoc {α : Type} (m : List (String × α)) (k : String) (v : α) :
    List (String × α) :=
  if m.any (fun pr => pr.1 == k) then
    m.map (fun pr => if pr.1 == k then (k, v) else pr)
  else m ++ [(k, v)]

/-- Embeds `map.entry(k).or_insert_with(HashSet::new).insert(v)` on an adjacency map. -/
def insert_multimap (m : List (String × List String)) (k v : String) :
    List (String × List String) :=
  if m.any (fun pr => pr.1 == k) then
    m.map (fun pr => if pr.1 == k then (pr.1, insert_set pr.2 v) else pr)
  else m ++ [(k, [v])]

/-- The call graph, from `src/analysis/call_graph.rs` (`CallGraph`). -/
structure CallGraph where
  functions : List (String × FunctionInfo)
  calls : List (String × List String)
  reverse_calls : List (String × List String)
  unsafe_functions : List String
  public_functions : List String
  public_unsafe_functions : List String
  public_non_unsafe_functions : List String
  max_search_depth : Nat
  param_custom_types : List (String × List String)
  return_custom_types : List (String × List String)

/-- Embeds `CallGraph::new`. -/
def CallGraph.new (max_depth : Nat) : CallGraph :=
  ⟨[], [], [], [], [], [], [], max_depth, [], []⟩

/-- Embeds `CallGraph::add_function`.  The nested `if` structure of the source
(first on `visibility == Public`, then on `!is_unsafe_fn` and
`has_internal_unsafe` inside it, then the unconditional `has_internal_unsafe`
check) is rendered field-wise; the guarding conditions are identical. -/
def add_function (g : CallGraph) (path : String) (info : FunctionInfo) : CallGraph where
  functions := insert_assoc g.functions path info
  calls := g.calls
  reverse_calls := g.reverse_calls
  unsafe_functions :=
    if FunctionInfo.has_internal_unsafe info then insert_set g.unsafe_functions path
    else g.unsafe_functions
  public_functions :=
    if info.visibility = VisibilityKind.Public then insert_set g.public_functions path
    else g.public_functions
  public_unsafe_functions :=
    if info.visibility = VisibilityKind.Public ∧ FunctionInfo.has_internal_unsafe info then
      insert_set g.public_unsafe_functions path
    else g.public_unsafe_functions
  public_non_unsafe_functions :=
    if info.visibility = VisibilityKind.Public ∧ ¬ info.is_unsafe_fn then
      insert_set g.public_non_unsafe_functions path
    else g.public_non_unsafe_functions
  max_search_depth := g.max_search_depth
  param_custom_types :=
    if info.param_custom_types.isEmpty then g.param_custom_types
    else insert_assoc g.param_custom_types path info.param_custom_types
  return_custom_types :=
    if info.return_custom_types.isEmpty then g.return_custom_types
    else insert_assoc g.return_custom_types path info.return_custom_types

/-- Embeds `CallGraph::add_call`. -/
def add_call (g : CallGraph) (caller callee : String) : CallGraph :=
  { g with
    calls := insert_multimap g.calls caller callee
    reverse_calls := insert_multimap g.reverse_calls callee caller }

/-- Embeds `CallGraph::is_valid_path`: path length must exceed 1, the first node must be
a public non-unsafe-declared function, the last node an unsafe function, and no
strictly intermediate node unsafe or public-unsafe. -/
def is_valid_path (g : CallGraph) (path : List String) : Bool :=
  if path.length ≤ 1 then false
  else if path.getD 0 "" ∉ g.public_non_unsafe_functions then false
  else if path.getD (path.length - 1) "" ∉ g.unsafe_functions then false
  else (List.range' 1 (path.length - 1 - 1)).all (fun i =>
    !(decide (path.getD i "" ∈ g.unsafe_functions) ||
      decide (path.getD i "" ∈ g.public_unsafe_functions)))

/-- Embeds `CallGraph::is_minimal_path`: no node after the first may be public. -/
def is_minimal_path (g : CallGraph) (path : List String) : Bool :=
  (List.range' 1 (path.length - 1)).all (fun i =>
    !decide (path.getD i "" ∈ g.public_functions))

/-- Node conversion of a single path element inside
`CallGraph::convert_path_to_node_info`, including the conservative default
record for a lookup miss. -/
def convert_node (g : CallGraph) (full_path : String) : PathNodeInfo :=
  match lookup_assoc g.functions full_path with
  | some info =>
    { full_path := full_path
      visibility := info.visibility
      source_code := info.source_code
      param_custom_types := (lookup_assoc g.param_custom_types full_path).getD []
      return_custom_types := (lookup_assoc g.return_custom_types full_path).getD [] }
  | none =>
    { full_path := full_path
      visibility := VisibilityKind.Module
      source_code := ""
      param_custom_types := []
      return_custom_types := [] }

/-- Embeds `CallGraph::convert_path_to_node_info`. -/
def convert_path_to_node_info (g : CallGraph) (path : List String) : List PathNodeInfo :=
  path.map (convert_node g)

/-- Embeds `self.calls.get(&current)` with the absent case yielding no callees. -/
def lookup_calls (g : CallGraph) (f : String) : List String :=
  ((g.calls.find? (fun pr => pr.1 == f)).map (fun pr => pr.2)).getD []

/-- Fuel bound for the breadth-first search: one initial push plus at most one
push per callee-list entry, hence at least as many as the loop can iterate. -/
def bfs_fuel (g : CallGraph) : Nat :=
  1 + (g.calls.map (fun pr => pr.2.length)).sum

/-- Work loop of `CallGraph::precompute_reachable_targets`: pop the queue head,
record it if it is a target, and push every not-yet-visited callee (marking it
visited at push time, as the source does). -/
def bfs_reachable (g : CallGraph) (targets : List String) :
    Nat → List String → List String → List String → List String
  | 0, _, _, reachable => reachable
  | _ + 1, [], _, reachable => reachable
  | fuel + 1, current :: queue_rest, visited, reachable =>
    let reachable' := if current ∈ targets then insert_set reachable current else reachable
    let step := (lookup_calls g current).foldl
      (fun qv callee =>
        if callee ∈ qv.2 then qv else (qv.1 ++ [callee], qv.2 ++ [callee]))
      (queue_rest, visited)
    bfs_reachable g targets fuel step.1 step.2 reachable'

/-- Embeds `CallGraph::precompute_reachable_targets`. -/
def precompute_reachable_targets (g : CallGraph) (start : String)
    (targets : List String) : List String :=
  bfs_reachable g targets (bfs_fuel g) [start] [start] []

/-- Embeds `CallGraph::dfs_find_valid_paths`.  The source recurses with `depth + 1` and
abandons the branch when `depth > max_search_depth`; the extra structural fuel
argument runs in lockstep (`fuel = max_search_depth + 1 - depth` at every
call), so the fuel-exhaustion branch coincides with the depth check. -/
def dfs_find_valid_paths (g : CallGraph) (targets : List String) :
    Nat → String → List String → List String → Nat → List (List String)
  | 0, _, _, _, _ => []
  | fuel + 1, current, visited, path, depth =>
    if g.max_search_depth < depth then []
    else if current ∈ visited then []
    else if path ≠ [] ∧ current ∉ targets ∧
        (current ∈ g.unsafe_functions ∨ current ∈ g.public_unsafe_functions) then []
    else
      let visited' := visited ++ [current]
      let path' := path ++ [current]
      if current ∈ targets then [path']
      else (lookup_calls g current).flatMap
        (fun callee => dfs_find_valid_paths g targets fuel callee visited' path' (depth + 1))

/-- Embeds `CallGraph::find_valid_paths`. -/
def find_valid_paths (g : CallGraph) (start : String) (targets : List String) :
    List (List String) :=
  dfs_find_valid_paths g targets (g.max_search_depth + 1) start [] [] 0

/-- Embeds `CallGraph::find_paths_to_unsafe`: first the degenerate public-unsafe
entries, then a bounded depth-first search from every remaining public
non-unsafe-declared origin toward the non-public unsafe functions, and finally
the validity, minimality and length filters and the node-info conversion. -/
def find_paths_to_unsafe (g : CallGraph) : List (List PathNodeInfo) :=
  let degenerate := (g.public_unsafe_functions.filter
    (fun f => decide (f ∈ g.public_non_unsafe_functions))).map (fun f => [f])
  let non_public_unsafe := g.unsafe_functions.filter
    (fun f => decide (f ∉ g.public_unsafe_functions))
  let searched := (g.public_non_unsafe_functions.filter
    (fun f => decide (f ∉ g.public_unsafe_functions))).flatMap
    (fun pub_fn =>
      let reachable_targets := precompute_reachable_targets g pub_fn non_public_unsafe
      if reachable_targets.isEmpty then []
      else find_valid_paths g pub_fn reachable_targets)
  let all_paths := degenerate ++ searched
  ((((all_paths.filter (fun path => is_valid_path g path)).filter
      (fun path => is_minimal_path g path)).filter
      (fun path => decide (1 < path.length))).map
      (fun path => convert_path_to_node_info g path))

/-- Graph construction of `StaticAnalyzer::analyze_file`
(`src/analysis/analyzer.rs`, lines 121–130): a fresh graph, every visitor
function added, then every recorded call edge. -/
def build_call_graph (max_depth : Nat) (functions : List (String × FunctionInfo))
    (calls : List FunctionCall) : CallGraph :=
  let g := functions.foldl (fun g pr => add_function g pr.1 pr.2) (CallGraph.new max_depth)
  calls.foldl (fun g c => add_call g c.caller c.callee) g

/-- Sample function metadata as recorded by `FunctionVisitor` for a top-level
function: only the classification fields vary across the scenarios below. -/
def fn_info (name : String) (vis : VisibilityKind) (unsafe_sig internal : Bool)
    (src : String) : FunctionInfo where
  name := name
  module_path := ""
  visibility := vis
  has_internal_unsafe := internal
  is_unsafe_fn := unsafe_sig
  file_path := "lib.rs"
  source_code := src
  param_custom_types := []
  return_custom_types := []
  has_self_param := false
  owner_type := none
  unsafe_operations := []

/-- Scenario 1 of the specification: `pub fn a` calls a private function `b`
whose body contains an unsafe block. -/
def scenario1_graph : CallGraph :=
  build_call_graph 20
    [("a", fn_info "a" VisibilityKind.Public false false "pub fn a"),
     ("b", fn_info "b" VisibilityKind.Module false true "fn b")]
    [⟨"a", "b"⟩]

/-- The single path discovered in scenario 1, in node-info form. -/
def scenario1_path : List PathNodeInfo :=
  [⟨"a", VisibilityKind.Public, "pub fn a", [], []⟩,
   ⟨"b", VisibilityKind.Module, "fn b", [], []⟩]

/-- Scenario 5 of the specification: the cyclic call graph `a -> b -> a` with
`a` public and safe and neither function containing unsafe code. -/
def cyclic_graph : CallGraph :=
  build_call_graph 20
    [("a", fn_info "a" VisibilityKind.Public false false "pub fn a"),
     ("b", fn_info "b" VisibilityKind.Module false false "fn b")]
    [⟨"a", "b"⟩, ⟨"b", "a"⟩]

/-- Degenerate case input: a single function `b` that is public, not
unsafe-declared, and internally unsafe (scenario 3's sink). -/
def degenerate_graph : CallGraph :=
  build_call_graph 20 [("b", fn_info "b" VisibilityKind.Public false true "pub fn b")] []

/-- Metadata of a `pub unsafe fn g` whose body also contains an unsafe block. -/
def info_g : FunctionInfo := fn_info "g" VisibilityKind.Public true true "pub unsafe fn g"

/-- Scenario 4 input: a `pub unsafe fn g` alongside the scenario 1 functions. -/
def scenario4_entries : List (String × FunctionInfo) :=
  [("g", info_g),
   ("a", fn_info "a" VisibilityKind.Public false false "pub fn a"),
   ("b", fn_info "b" VisibilityKind.Module false true "fn b")]

/-- Call edges of the scenario 4 input. -/
def scenario4_calls : List FunctionCall := [⟨"a", "b"⟩, ⟨"g", "b"⟩]

/-- The scenario 4 call graph. -/
def scenario4_graph : CallGraph := build_call_graph 20 scenario4_entries scenario4_calls

/-- First node of the path discovered in scenario 4. -/
def scenario4_node_a : PathNodeInfo := ⟨"a", VisibilityKind.Public, "pub fn a", [], []⟩

/-- The single path discovered in scenario 4 (identical to scenario 1's, since
the `pub unsafe fn g` contributes nothing). -/
def scenario4_path : List PathNodeInfo :=
  [scenario4_node_a, ⟨"b", VisibilityKind.Module, "fn b", [], []⟩]

/-- A graph holding one function that is public and unsafe-declared by
signature but whose body contains no unsafe block. -/
def sig_only_graph : CallGraph :=
  build_call_graph 20
    [("f", fn_info "f" VisibilityKind.Public true false "pub unsafe fn f")] []

/-! ### Expression model and visitors (`src/visitors/function.rs`, `src/visitors/call.rs`)

The parser is an external collaborator; expressions are embedded as the tree
shapes the visitors inspect: paths, casts (with a flag for pointer target
types), unary operators (with a flag for dereference), references, method
calls, calls, unsafe blocks and opaque literals.  `render` models
`to_token_stream().to_string()`: tokens joined by single spaces, path
segments separated by `::`. -/

mutual
inductive RExpr where
  | path (leading : Bool) (segments : List String)
  | cast (e : RExpr) (ty_is_ptr : Bool) (ty_text : String)
  | unary (deref : Bool) (e : RExpr)
  | reference (e : RExpr)
  | mcall (receiver : RExpr) (method : String) (args : RExprList)
  | fcall (func : RExpr) (args : RExprList)
  | unsafe_block (body : RExprList)
  | lit (text : String)
deriving DecidableEq
inductive RExprList where
  | nil
  | cons (e : RExpr) (rest : RExprList)
deriving DecidableEq
end

/-- Embeds `str::contains`: substring test. -/
def contains_substr (s sub : String) : Bool :=
  decide (sub.data <:+: s.data)

mutual
/-- Token text of an expression (model of `to_token_stream().to_string()`). -/
def render : RExpr → String
  | RExpr.path leading segments =>
    (if leading then ":: " else "") ++ String.intercalate " :: " segments
  | RExpr.cast e _ ty_text => render e ++ " as " ++ ty_text
  | RExpr.unary deref e => (if deref then "* " else "! ") ++ render e
  | RExpr.reference e => "& " ++ render e
  | RExpr.mcall receiver method args =>
    render receiver ++ " . " ++ method ++ " (" ++ render_list args " , " ++ ")"
  | RExpr.fcall func args => render func ++ " (" ++ render_list args " , " ++ ")"
  | RExpr.unsafe_block body => "unsafe \x7b " ++ render_list body " ; " ++ " \x7d"
  | RExpr.lit text => text
/-- Token text of an expression list with the given separator. -/
def render_list : RExprList → String → String
  | RExprList.nil, _ => ""
  | RExprList.cons e RExprList.nil, _ => render e
  | RExprList.cons e rest, sep => render e ++ sep ++ render_list rest sep
end

/-- Embeds `FunctionVisitor::might_be_raw_pointer`: a cast to a pointer type, a path
expression whose token text contains "ptr"/"raw"/"pointer", or a method call
named `add`/`offset`/`as_ptr`/`as_mut_ptr`. -/
def might_be_raw_pointer : RExpr → Bool
  | RExpr.cast _ ty_is_ptr _ => ty_is_ptr
  | RExpr.path leading segments =>
    let path_str := render (RExpr.path leading segments)
    contains_substr path_str "ptr" || contains_substr path_str "raw" ||
      contains_substr path_str "pointer"
  | RExpr.mcall _ method _ =>
    method == "add" || method == "offset" || method == "as_ptr" || method == "as_mut_ptr"
  | _ => false

/-- The `known_unsafe_functions` table built in `FunctionVisitor::new`. -/
def known_unsafe_functions_init : List String :=
  ["std::mem::transmute", "std::mem::transmute_copy", "ptr::read",
   "ptr::read_volatile", "ptr::write", "ptr::write_volatile", "ptr::copy",
   "ptr::copy_nonoverlapping", "std::ptr::drop_in_place", "from_raw_parts_mut",
   "slice::from_raw_parts_mut", "slice::from_raw_parts",
   "core::slice::from_raw_parts_mut", "core::slice::from_raw_parts",
   "from_utf8_unchecked", "from_utf8_unchecked_mut"]

/-- Embeds `FunctionVisitor::has_unsafe_keywords`. -/
def has_unsafe_keywords (name : String) : Bool :=
  contains_substr name "unsafe" ||
  contains_substr name "unchecked" ||
  contains_substr name "as_ptr" ||
  contains_substr name "as_mut_ptr" ||
  name == "assume_init" ||
  name == "set_len" ||
  contains_substr name "transmute" ||
  contains_substr name "from_raw_parts"

/-- The `common_unsafe_funcs` table of `is_common_unsafe_operation`, in source
order. -/
def common_unsafe_funcs : List (String × UnsafeOperationType) :=
  [("from_raw_parts", UnsafeOperationType.RawPointerDereference),
   ("from_raw_parts_mut", UnsafeOperationType.RawPointerDereference),
   ("copy_nonoverlapping", UnsafeOperationType.RawPointerDereference),
   ("copy", UnsafeOperationType.RawPointerDereference),
   ("write", UnsafeOperationType.RawPointerDereference),
   ("read", UnsafeOperationType.RawPointerDereference),
   ("offset", UnsafeOperationType.RawPointerDereference),
   ("add", UnsafeOperationType.RawPointerDereference),
   ("drop_in_place", UnsafeOperationType.RawPointerDereference),
   ("slice_from_raw_parts", UnsafeOperationType.RawPointerDereference),
   ("slice_from_raw_parts_mut", UnsafeOperationType.RawPointerDereference),
   ("transmute", UnsafeOperationType.Other "内存转换"),
   ("forget", UnsafeOperationType.Other "内存忽略"),
   ("zeroed", UnsafeOperationType.Other "零初始化"),
   ("uninitialized", UnsafeOperationType.Other "未初始化内存"),
   ("set_len", UnsafeOperationType.UnsafeMethodCall),
   ("as_ptr", UnsafeOperationType.UnsafeMethodCall),
   ("as_mut_ptr", UnsafeOperationType.UnsafeMethodCall),
   ("from_utf8_unchecked", UnsafeOperationType.UnsafeMethodCall),
   ("from_utf8_unchecked_mut", UnsafeOperationType.UnsafeMethodCall)]

/-- Embeds `FunctionVisitor::is_common_unsafe_operation`: first a contains-match over
the whole path, then an equality match against its last `::` segment. -/
def is_common_unsafe_operation (func_path : String) : Option UnsafeOperationType :=
  match common_unsafe_funcs.find? (fun pr => contains_substr func_path pr.1) with
  | some pr => some pr.2
  | none =>
    match (func_path.splitOn "::").getLast? with
    | some last_part =>
      (common_unsafe_funcs.find? (fun pr => last_part == pr.1)).map (fun pr => pr.2)
    | none => none

/-- The `unsafe_function_names` table of `is_known_unsafe_full_path`. -/
def unsafe_function_names : List String :=
  ["from_raw_parts", "from_raw_parts_mut", "copy_nonoverlapping", "transmute",
   "forget", "offset", "from_utf8_unchecked", "from_utf8_unchecked_mut",
   "drop_in_place"]

/-- The `known_unsafe_paths` table of `is_known_unsafe_full_path`. -/
def known_unsafe_paths : List (List String) :=
  [["core", "slice", "from_raw_parts"], ["core", "slice", "from_raw_parts_mut"],
   ["std", "slice", "from_raw_parts"], ["std", "slice", "from_raw_parts_mut"],
   ["slice", "from_raw_parts"], ["slice", "from_raw_parts_mut"],
   ["core", "ptr", "read"], ["core", "ptr", "write"], ["core", "ptr", "copy"],
   ["core", "ptr", "copy_nonoverlapping"], ["std", "ptr", "read"],
   ["std", "ptr", "write"], ["std", "ptr", "copy"],
   ["std", "ptr", "copy_nonoverlapping"], ["std", "mem", "transmute"],
   ["core", "mem", "transmute"], ["core", "mem", "forget"],
   ["std", "mem", "forget"]]

/-- Embeds `FunctionVisitor::is_known_unsafe_full_path`.  In the source, every branch
inside the `unsafe_function_names.contains(..)` block returns `true` (the
module-context checks are commentary only), so that block collapses to the
membership test; then suffix-matching against `known_unsafe_paths`. -/
def is_known_unsafe_full_path (segments : List String) : Bool :=
  match segments.getLast? with
  | none => false
  | some last_segment =>
    if last_segment ∈ unsafe_function_names then true
    else known_unsafe_paths.any (fun p =>
      decide (p.length ≤ segments.length) &&
      decide (segments.drop (segments.length - p.length) = p))

/-- Expression-traversal state of `FunctionVisitor`, restricted to the fields
touched while visiting a function body. -/
structure FVState where
  current_function : Option String
  functions : List (String × FunctionInfo)
  unsafe_functions : List String
  has_unsafe : Bool
  in_unsafe_block : Bool
  current_unsafe_operations : List UnsafeOperation
  known_unsafe_functions : List String

/-- Embeds `FunctionVisitor::record_unsafe_operation`: requires a current function,
suppresses duplicates by code snippet, rewrites the description to the
simplified per-kind text, and appends the operation both to the function's
record and to the current list. -/
def record_unsafe_operation (s : FVState) (op_type : UnsafeOperationType)
    (_description : String) (code_snippet : String) : FVState :=
  match s.current_function with
  | none => s
  | some current_fn =>
    if s.current_unsafe_operations.any (fun op => op.code_snippet == code_snippet) then s
    else
      let simplified_description :=
        match op_type with
        | UnsafeOperationType.RawPointerDereference => "裸指针操作"
        | UnsafeOperationType.UnsafeFunctionCall => "调用unsafe函数"
        | UnsafeOperationType.UnsafeMethodCall => "调用unsafe方法"
        | UnsafeOperationType.InlineAssembly => "内联汇编"
        | UnsafeOperationType.UnionFieldAccess => "访问联合体字段"
        | UnsafeOperationType.MutStaticAccess => "访问可变静态变量"
        | UnsafeOperationType.Other desc => desc
      let operation : UnsafeOperation := ⟨op_type, simplified_description, code_snippet, none⟩
      let functions' :=
        match lookup_assoc s.functions current_fn with
        | some fi =>
          insert_assoc s.functions current_fn
            { fi with unsafe_operations := fi.unsafe_operations ++ [operation] }
        | none => s.functions
      { s with
        functions := functions'
        current_unsafe_operations := s.current_unsafe_operations ++ [operation] }

mutual
/-- Expression traversal of `FunctionVisitor` (`visit_expr_unsafe`,
`visit_expr_unary`, `visit_expr_call`, `visit_expr_method_call`, and the
default child recursion of `syn::visit` elsewhere). -/
def fv_visit_expr (s : FVState) : RExpr → FVState
  | RExpr.unsafe_block body =>
    let prev_in_unsafe := s.in_unsafe_block
    let s1 := { s with has_unsafe := true, in_unsafe_block := true }
    let s2 := fv_visit_list s1 body
    { s2 with in_unsafe_block := prev_in_unsafe }
  | RExpr.unary deref e =>
    let s1 :=
      if deref then
        if s.in_unsafe_block then
          if might_be_raw_pointer e then
            let expr_str := render (RExpr.unary deref e)
            if ¬ List.isPrefixOf "& *".data expr_str.data then
              record_unsafe_operation s UnsafeOperationType.RawPointerDereference
                "解引用裸指针" expr_str
            else s
          else s
        else s
      else s
    fv_visit_expr s1 e
  | RExpr.fcall func args =>
    let s1 :=
      match s.current_function with
      | none => s
      | some _ =>
        match func with
        | RExpr.path leading segments =>
          let code_snippet := render (RExpr.fcall func args)
          let path_str := render (RExpr.path leading segments)
          let s1a :=
            if is_known_unsafe_full_path segments then
              record_unsafe_operation s UnsafeOperationType.UnsafeFunctionCall
                ("调用unsafe函数: " ++ path_str) code_snippet
            else if path_str ∈ s.known_unsafe_functions then
              record_unsafe_operation s UnsafeOperationType.UnsafeFunctionCall
                ("调用unsafe函数: " ++ path_str) code_snippet
            else s
          match is_common_unsafe_operation path_str with
          | some op_type =>
            record_unsafe_operation s1a op_type ("调用unsafe操作: " ++ path_str) code_snippet
          | none => s1a
        | _ => s
    fv_visit_list (fv_visit_expr s1 func) args
  | RExpr.mcall receiver method args =>
    let s1 :=
      match s.current_function with
      | none => s
      | some _ =>
        let code_snippet := render (RExpr.mcall receiver method args)
        let s1a :=
          if has_unsafe_keywords method then
            record_unsafe_operation s UnsafeOperationType.UnsafeMethodCall
              ("调用unsafe方法: " ++ method) code_snippet
          else s
        match is_common_unsafe_operation method with
        | some op_type =>
          record_unsafe_operation s1a op_type ("调用unsafe操作: " ++ method) code_snippet
        | none => s1a
    fv_visit_list (fv_visit_expr s1 receiver) args
  | RExpr.cast e _ _ => fv_visit_expr s e
  | RExpr.reference e => fv_visit_expr s e
  | RExpr.path _ _ => s
  | RExpr.lit _ => s
/-- Traversal of a list of child expressions, left to right. -/
def fv_visit_list (s : FVState) : RExprList → FVState
  | RExprList.nil => s
  | RExprList.cons e rest => fv_visit_list (fv_visit_expr s e) rest
end

/-- Initial visitor state while inside the body of a function `f`, as set up by
`visit_item_fn` / `add_function` of the visitor. -/
def c6_state : FVState where
  current_function := some "f"
  functions := [("f", fn_info "f" VisibilityKind.Module false false "fn f")]
  unsafe_functions := []
  has_unsafe := false
  in_unsafe_block := false
  current_unsafe_operations := []
  known_unsafe_functions := known_unsafe_functions_init

/-- The safe-reborrow body `unsafe { &*ptr }`. -/
def c6_body : RExpr :=
  RExpr.unsafe_block
    (RExprList.cons (RExpr.reference (RExpr.unary true (RExpr.path false ["ptr"]))) RExprList.nil)

/-! ### Call visitor (`src/visitors/call.rs`) -/

/-- Expression-traversal state of `CallVisitor`. -/
structure CVState where
  current_module_path : List String
  current_function : Option String
  calls : List FunctionCall
  imports : List (String × String)

/-- Embeds `CallVisitor::get_current_module_path`. -/
def get_current_module_path (s : CVState) : String :=
  String.intercalate "::" s.current_module_path

/-- Embeds `CallVisitor::resolve_path`.  The token text of a path with the spaces
removed is its `::`-joined form; import substitution replaces the first
segment, else a relative path is prefixed with the current module path. -/
def resolve_path (s : CVState) (leading : Bool) (segments : List String) : String :=
  let path_str := (if leading then "::" else "") ++ String.intercalate "::" segments
  let substituted :=
    match segments with
    | first :: rest =>
      match lookup_assoc s.imports first with
      | some imp => some ((if leading then "::" else "") ++ String.intercalate "::" (imp :: rest))
      | none => none
    | [] => none
  match substituted with
  | some r => r
  | none =>
    if ¬ List.isPrefixOf "crate::".data path_str.data ∧
        ¬ List.isPrefixOf "::".data path_str.data then
      let module_path := get_current_module_path s
      if module_path ≠ "" then module_path ++ "::" ++ path_str else path_str
    else path_str

/-- Embeds `CallVisitor::handle_call`. -/
def handle_call (s : CVState) (leading : Bool) (segments : List String) : CVState :=
  match s.current_function with
  | some caller => { s with calls := s.calls ++ [⟨caller, resolve_path s leading segments⟩] }
  | none => s

mutual
/-- Expression traversal of `CallVisitor` (`visit_expr_call`,
`visit_expr_method_call`, and the default child recursion elsewhere).
`visit_expr_call` descends only into the arguments, as the source does. -/
def cv_visit_expr (s : CVState) : RExpr → CVState
  | RExpr.fcall func args =>
    let s1 :=
      match func with
      | RExpr.path leading segments => handle_call s leading segments
      | _ => s
    cv_visit_list s1 args
  | RExpr.mcall receiver method args =>
    let s1 :=
      match s.current_function with
      | some caller =>
        let method_name := method
        let module_path := get_current_module_path s
        let callee :=
          if module_path == "" then method_name else module_path ++ "::" ++ method_name
        { s with calls := s.calls ++ [⟨caller, callee⟩] }
      | none => s
    cv_visit_list (cv_visit_expr s1 receiver) args
  | RExpr.unary _ e => cv_visit_expr s e
  | RExpr.reference e => cv_visit_expr s e
  | RExpr.cast e _ _ => cv_visit_expr s e
  | RExpr.unsafe_block body => cv_visit_list s body
  | RExpr.path _ _ => s
  | RExpr.lit _ => s
/-- Traversal of a list of child expressions, left to right. -/
def cv_visit_list (s : CVState) : RExprList → CVState
  | RExprList.nil => s
  | RExprList.cons e rest => cv_visit_list (cv_visit_expr s e) rest
end

/-- A call-visitor state inside `pub fn f` of module `mymod`. -/
def cv_state0 : CVState where
  current_module_path := ["mymod"]
  current_function := some "mymod::f"
  calls := []
  imports := []

/-! ### Source beautifier (`src/utils.rs`) and analyzer pre-filter
(`src/analysis/analyzer.rs`)

Source text is embedded as `List Char`.  `prettyplease`/`syn` (the
formatting path taken for comment-free input) are external collaborators and
appear as an opaque function parameter; the in-repository fallback formatter
(`enhanced_format_source_code` and its helpers) is translated below.
`str::len` is modelled as character count (inputs considered here are
ASCII). -/

/-- Embeds `str::contains` on embedded text. -/
def contains_chars (s sub : List Char) : Bool :=
  decide (sub <:+: s)

/-- The token content of a text: everything except whitespace and line breaks.
Two texts are whitespace-equivalent when their token contents agree. -/
def tokens_chars (s : List Char) : List Char :=
  s.filter (fun c => !c.isWhitespace)

/-- Embeds `str::trim`. -/
def trim_chars (l : List Char) : List Char :=
  ((l.dropWhile Char.isWhitespace).reverse.dropWhile Char.isWhitespace).reverse

/-- The `"` character. -/
def quote_char : Char := Char.ofNat 34
/-- The `'` character. -/
def apostrophe_char : Char := Char.ofNat 39
/-- The `\` character. -/
def backslash_char : Char := Char.ofNat 92
/-- The `{` character. -/
def open_brace : Char := Char.ofNat 123
/-- The `}` character. -/
def close_brace : Char := Char.ofNat 125
/-- The newline character. -/
def newline_char : Char := Char.ofNat 10

/-- Accumulator loop for `str::lines`. -/
def rust_lines_aux : List Char → List Char → List (List Char)
  | [], acc => if acc.isEmpty then [] else [acc]
  | c :: rest, acc =>
    if c == newline_char then acc :: rust_lines_aux rest []
    else rust_lines_aux rest (acc ++ [c])

/-- Embeds `str::lines`: split at newlines, no entry after a trailing newline. -/
def rust_lines (s : List Char) : List (List Char) :=
  rust_lines_aux s []

/-- Embeds `utils::ensure_complete_function`: count `{` and `}` over the whole text
(string-literal and comment contents included) and append one `\n}` per
missing closing brace. -/
def ensure_complete_function (source_code : List Char) : List Char :=
  let open_braces := source_code.countP (fun c => c == open_brace)
  let close_braces := source_code.countP (fun c => c == close_brace)
  if close_braces < open_braces then
    source_code ++ (List.replicate (open_braces - close_braces) [newline_char, close_brace]).flatten
  else source_code

/-- Loop state of `utils::format_single_long_line`. -/
structure LineFmtState where
  result : List Char
  current_indent : Nat
  in_string : Bool
  current_line : List Char

/-- One character step of `utils::format_single_long_line`: first toggle the
string flag on a quote, then — outside string literals — break and indent at
braces and semicolons, else append the character to the current line. -/
def format_single_long_line_step (st : LineFmtState) (ch : Char) : LineFmtState :=
  let in_string1 := if ch == quote_char then !st.in_string else st.in_string
  if !in_string1 then
    if ch == open_brace then
      { result := st.result ++ st.current_line ++ [ch, newline_char]
        current_indent := st.current_indent + 1
        in_string := in_string1
        current_line := List.replicate ((st.current_indent + 1) * 4) ' ' }
    else if ch == close_brace then
      let indent' := if 0 < st.current_indent then st.current_indent - 1 else st.current_indent
      let result' :=
        if (trim_chars st.current_line).isEmpty then st.result
        else st.result ++ st.current_line ++ [newline_char]
      { result := result'
        current_indent := indent'
        in_string := in_string1
        current_line := List.replicate (indent' * 4) ' ' ++ [ch] }
    else if ch == ';' then
      { result := st.result ++ st.current_line ++ [ch, newline_char]
        current_indent := st.current_indent
        in_string := in_string1
        current_line := List.replicate (st.current_indent * 4) ' ' }
    else
      { result := st.result
        current_indent := st.current_indent
        in_string := in_string1
        current_line := st.current_line ++ [ch] }
  else
    { result := st.result
      current_indent := st.current_indent
      in_string := in_string1
      current_line := st.current_line ++ [ch] }

/-- Embeds `utils::format_single_long_line`: run the character loop, then append the
pending line unless it is blank. -/
def format_single_long_line (line : List Char) : List Char :=
  if (trim_chars (line.foldl format_single_long_line_step ⟨[], 0, false, []⟩).current_line).isEmpty then
    (line.foldl format_single_long_line_step ⟨[], 0, false, []⟩).result
  else
    (line.foldl format_single_long_line_step ⟨[], 0, false, []⟩).result ++
      (line.foldl format_single_long_line_step ⟨[], 0, false, []⟩).current_line

/-- Inner brace counting of `utils::enhanced_format_source_code`: adjust the
indent level over one line's characters, skipping string/char literal
contents, ignoring lambda-introducing `{` after `|`, and never decrementing
for a closer at index 0 (already handled) or below zero. -/
def brace_scan : List Char → Nat → Option Char → Bool → Bool → Nat → Nat
  | [], _, _, _, _, indent_level => indent_level
  | c :: rest, i, prev, string_literal, char_literal, indent_level =>
    if c == quote_char ∧ (i = 0 ∨ prev ≠ some backslash_char) then
      brace_scan rest (i + 1) (some c) (!string_literal) char_literal indent_level
    else if c == apostrophe_char ∧ (i = 0 ∨ prev ≠ some backslash_char) then
      brace_scan rest (i + 1) (some c) string_literal (!char_literal) indent_level
    else if !string_literal ∧ !char_literal then
      if c == open_brace ∨ c == '[' ∨ c == '(' then
        let is_lambda := c == open_brace ∧ 0 < i ∧ prev == some '|'
        brace_scan rest (i + 1) (some c) string_literal char_literal
          (if is_lambda then indent_level else indent_level + 1)
      else if c == close_brace ∨ c == ']' ∨ c == ')' then
        brace_scan rest (i + 1) (some c) string_literal char_literal
          (if i ≠ 0 ∧ 0 < indent_level then indent_level - 1 else indent_level)
      else brace_scan rest (i + 1) (some c) string_literal char_literal indent_level
    else brace_scan rest (i + 1) (some c) string_literal char_literal indent_level

/-- Loop state of the line pass of `utils::enhanced_format_source_code`. -/
structure EnhFmtState where
  result : List Char
  indent_level : Nat
  within_comment : Bool
  had_content : Bool

/-- Closing-bracket test for the first character of a trimmed line. -/
def enh_start_with_close (trimmed : List Char) : Bool :=
  trimmed.head? == some close_brace ∨ trimmed.head? == some ']' ∨
    trimmed.head? == some ')'

/-- Indent level after the leading-closer adjustment. -/
def enh_indent1 (indent_level : Nat) (trimmed : List Char) : Nat :=
  if enh_start_with_close trimmed ∧ 0 < indent_level then indent_level - 1
  else indent_level

/-- Indentation prefix for a line (suppressed for attribute lines). -/
def enh_indent_text (indent_level : Nat) (trimmed : List Char) : List Char :=
  if List.isPrefixOf "#".data trimmed then []
  else (List.replicate (enh_indent1 indent_level trimmed) "    ".data).flatten

/-- One line step of `utils::enhanced_format_source_code`: comment lines pass
through verbatim, blank lines collapse to a newline once content has been
seen, and other lines are re-emitted trimmed with computed indentation while
the indent level is updated by the brace scan. -/
def enh_line_step (st : EnhFmtState) (line : List Char) : EnhFmtState :=
  if (if List.isPrefixOf "/*".data (trim_chars line) then true else st.within_comment) then
    { result := st.result ++ line ++ [newline_char]
      indent_level := st.indent_level
      within_comment :=
        if decide ("*/".data <:+ trim_chars line) then false
        else if List.isPrefixOf "/*".data (trim_chars line) then true else st.within_comment
      had_content := st.had_content }
  else if (trim_chars line).isEmpty then
    if st.had_content then { st with result := st.result ++ [newline_char] } else st
  else
    { result := st.result ++ enh_indent_text st.indent_level (trim_chars line) ++
        trim_chars line ++ [newline_char]
      indent_level := brace_scan (trim_chars line) 0 none false false
        (enh_indent1 st.indent_level (trim_chars line))
      within_comment := false
      had_content := true }

/-- Embeds `utils::enhanced_format_source_code`: complete the braces, then format —
one very long line is split at delimiters, up to 15 lines pass through
unchanged, and longer input is re-indented line by line. -/
def enhanced_format_source_code (source_code : List Char) : List Char :=
  if (rust_lines (ensure_complete_function source_code)).length = 1 ∧
      100 < ((rust_lines (ensure_complete_function source_code)).getD 0 []).length then
    format_single_long_line ((rust_lines (ensure_complete_function source_code)).getD 0 [])
  else if (rust_lines (ensure_complete_function source_code)).length ≤ 15 then
    ensure_complete_function source_code
  else
    ((rust_lines (ensure_complete_function source_code)).foldl enh_line_step
      ⟨[], 0, false, false⟩).result

/-- Embeds `utils::beautify_source_code`.  Input containing a comment marker is
formatted by `enhanced_format_source_code`; comment-free input goes to the
out-of-scope `syn`/`prettyplease` cascade, abstracted as `pretty`. -/
def beautify_source_code (pretty : List Char → List Char) (source_code : List Char) :
    List Char :=
  let has_comments := contains_chars source_code "//".data ||
    contains_chars source_code "/*".data
  if has_comments then enhanced_format_source_code source_code
  else pretty source_code

/-- A well-formatted function whose comment contains a `{`: the failing input
for the beautifier round-trip. -/
def c7_input : String := "fn f() \x7b\n    // note \x7b\n    let x = 1;\n\x7d"

/-- A well-formatted, brace-balanced, comment-bearing input. -/
def c7_balanced_input : String := "// frobnicate\nfn g() \x7b\n    h();\n\x7d"

/-- Embeds `StaticAnalyzer::should_analyze_file`: reject files over the size limit and
files missing either the `unsafe` or the `pub fn` textual marker. -/
def should_analyze_file (file_size_limit : Nat) (file_size : Nat)
    (content : List Char) : Bool :=
  if file_size_limit < file_size then false
  else if ¬ contains_chars content "unsafe".data ∨
      ¬ contains_chars content "pub fn".data then false
  else true

/-- Embeds `StaticAnalyzer::analyze_file`, abstracted over the out-of-scope parsing
and visiting pipeline `parse_and_analyze` (everything the function does after
the pre-filter): when the quick check fails, the result is `none` and
`parse_and_analyze` is never consulted. -/
def analyze_file {α : Type} (file_size_limit : Nat)
    (parse_and_analyze : List Char → Option α) (file_size : Nat)
    (content : List Char) : Option α :=
  if should_analyze_file file_size_limit file_size content = false then none
  else parse_and_analyze content

/-! ### Lemmas about set and map embedding -/

theorem mem_insert_set {s : List String} {x y : String} :
    x ∈ insert_set s y ↔ x ∈ s ∨ x = y := by
  unfold insert_set
  split
  next hy =>
    constructor
    · exact Or.inl
    · rintro (hx | rfl)
      · exact hx
      · exact hy
  next hy => simp [List.mem_append]

/-! ### Lemmas about graph construction -/

theorem foldl_add_call_fields (cs : List FunctionCall) (g : CallGraph) :
    (cs.foldl (fun g c => add_call g c.caller c.callee) g).unsafe_functions
        = g.unsafe_functions ∧
    (cs.foldl (fun g c => add_call g c.caller c.callee) g).public_functions
        = g.public_functions ∧
    (cs.foldl (fun g c => add_call g c.caller c.callee) g).public_unsafe_functions
        = g.public_unsafe_functions ∧
    (cs.foldl (fun g c => add_call g c.caller c.callee) g).public_non_unsafe_functions
        = g.public_non_unsafe_functions ∧
    (cs.foldl (fun g c => add_call g c.caller c.callee) g).max_search_depth
        = g.max_search_depth ∧
    (cs.foldl (fun g c => add_call g c.caller c.callee) g).functions
        = g.functions := by
  induction cs generalizing g with
  | nil => exact ⟨rfl, rfl, rfl, rfl, rfl, rfl⟩
  | cons c rest ih => simpa using ih (add_call g c.caller c.callee)

theorem foldl_add_function_unsafe_set
    (entries : List (String × FunctionInfo)) (g : CallGraph) (f : String) :
    f ∈ (entries.foldl (fun g pr => add_function g pr.1 pr.2) g).unsafe_functions ↔
      f ∈ g.unsafe_functions ∨
        ∃ i, (f, i) ∈ entries ∧ FunctionInfo.has_internal_unsafe i = true := by
  induction entries generalizing g with
  | nil => simp
  | cons pr rest ih =>
    obtain ⟨p, i⟩ := pr
    rw [List.foldl_cons, ih]
    have hstep : (add_function g p i).unsafe_functions =
        if FunctionInfo.has_internal_unsafe i then insert_set g.unsafe_functions p
        else g.unsafe_functions := rfl
    rw [hstep]
    by_cases hP : FunctionInfo.has_internal_unsafe i = true
    · rw [if_pos hP]
      simp only [mem_insert_set, List.mem_cons, Prod.mk.injEq]
      constructor
      · rintro ((hf | rfl) | ⟨j, hj, hPj⟩)
        · exact Or.inl hf
        · exact Or.inr ⟨i, Or.inl ⟨rfl, rfl⟩, hP⟩
        · exact Or.inr ⟨j, Or.inr hj, hPj⟩
      · rintro (hf | ⟨j, (⟨rfl, rfl⟩ | hj), hPj⟩)
        · exact Or.inl (Or.inl hf)
        · exact Or.inl (Or.inr rfl)
        · exact Or.inr ⟨j, hj, hPj⟩
    · rw [if_neg (by simpa using hP)]
      simp only [List.mem_cons, Prod.mk.injEq]
      constructor
      · rintro (hf | ⟨j, hj, hPj⟩)
        · exact Or.inl hf
        · exact Or.inr ⟨j, Or.inr hj, hPj⟩
      · rintro (hf | ⟨j, (⟨rfl, rfl⟩ | hj), hPj⟩)
        · exact Or.inl hf
        · exact absurd hPj hP
        · exact Or.inr ⟨j, hj, hPj⟩

theorem foldl_add_function_mem_public
    (entries : List (String × FunctionInfo)) (g : CallGraph) (f : String) :
    f ∈ (entries.foldl (fun g pr => add_function g pr.1 pr.2) g).public_functions ↔
      f ∈ g.public_functions ∨
        ∃ i, (f, i) ∈ entries ∧ i.visibility = VisibilityKind.Public := by
  induction entries generalizing g with
  | nil => simp
  | cons pr rest ih =>
    obtain ⟨p, i⟩ := pr
    rw [List.foldl_cons, ih]
    have hstep : (add_function g p i).public_functions =
        if i.visibility = VisibilityKind.Public then insert_set g.public_functions p
        else g.public_functions := rfl
    rw [hstep]
    by_cases hP : i.visibility = VisibilityKind.Public
    · rw [if_pos hP]
      simp only [mem_insert_set, List.mem_cons, Prod.mk.injEq]
      constructor
      · rintro ((hf | rfl) | ⟨j, hj, hPj⟩)
        · exact Or.inl hf
        · exact Or.inr ⟨i, Or.inl ⟨rfl, rfl⟩, hP⟩
        · exact Or.inr ⟨j, Or.inr hj, hPj⟩
      · rintro (hf | ⟨j, (⟨rfl, rfl⟩ | hj), hPj⟩)
        · exact Or.inl (Or.inl hf)
        · exact Or.inl (Or.inr rfl)
        · exact Or.inr ⟨j, hj, hPj⟩
    · rw [if_neg hP]
      simp only [List.mem_cons, Prod.mk.injEq]
      constructor
      · rintro (hf | ⟨j, hj, hPj⟩)
        · exact Or.inl hf
        · exact Or.inr ⟨j, Or.inr hj, hPj⟩
      · rintro (hf | ⟨j, (⟨rfl, rfl⟩ | hj), hPj⟩)
        · exact Or.inl hf
        · exact absurd hPj hP
        · exact Or.inr ⟨j, hj, hPj⟩

theorem foldl_add_function_pns_set
    (entries : List (String × FunctionInfo)) (g : CallGraph) (f : String) :
    f ∈ (entries.foldl (fun g pr => add_function g pr.1 pr.2) g).public_non_unsafe_functions ↔
      f ∈ g.public_non_unsafe_functions ∨
        ∃ i, (f, i) ∈ entries ∧
          (i.visibility = VisibilityKind.Public ∧ ¬ i.is_unsafe_fn = true) := by
  induction entries generalizing g with
  | nil => simp
  | cons pr rest ih =>
    obtain ⟨p, i⟩ := pr
    rw [List.foldl_cons, ih]
    have hstep : (add_function g p i).public_non_unsafe_functions =
        if i.visibility = VisibilityKind.Public ∧ ¬ i.is_unsafe_fn then
          insert_set g.public_non_unsafe_functions p
        else g.public_non_unsafe_functions := rfl
    rw [hstep]
    by_cases hP : i.visibility = VisibilityKind.Public ∧ ¬ i.is_unsafe_fn = true
    · rw [if_pos (by simpa using hP)]
      simp only [mem_insert_set, List.mem_cons, Prod.mk.injEq]
      constructor
      · rintro ((hf | rfl) | ⟨j, hj, hPj⟩)
        · exact Or.inl hf
        · exact Or.inr ⟨i, Or.inl ⟨rfl, rfl⟩, hP⟩
        · exact Or.inr ⟨j, Or.inr hj, hPj⟩
      · rintro (hf | ⟨j, (⟨rfl, rfl⟩ | hj), hPj⟩)
        · exact Or.inl (Or.inl hf)
        · exact Or.inl (Or.inr rfl)
        · exact Or.inr ⟨j, hj, hPj⟩
    · rw [if_neg (by simpa using hP)]
      simp only [List.mem_cons, Prod.mk.injEq]
      constructor
      · rintro (hf | ⟨j, hj, hPj⟩)
        · exact Or.inl hf
        · exact Or.inr ⟨j, Or.inr hj, hPj⟩
      · rintro (hf | ⟨j, (⟨rfl, rfl⟩ | hj), hPj⟩)
        · exact Or.inl hf
        · exact absurd hPj hP
        · exact Or.inr ⟨j, hj, hPj⟩

theorem build_mem_unsafe_functions (d : Nat) (entries : List (String × FunctionInfo))
    (calls : List FunctionCall) (f : String) :
    f ∈ (build_call_graph d entries calls).unsafe_functions ↔
      ∃ i, (f, i) ∈ entries ∧ FunctionInfo.has_internal_unsafe i = true := by
  unfold build_call_graph
  rw [(foldl_add_call_fields calls _).1, foldl_add_function_unsafe_set]
  simp [CallGraph.new]

theorem build_mem_public_functions (d : Nat) (entries : List (String × FunctionInfo))
    (calls : List FunctionCall) (f : String) :
    f ∈ (build_call_graph d entries calls).public_functions ↔
      ∃ i, (f, i) ∈ entries ∧ i.visibility = VisibilityKind.Public := by
  unfold build_call_graph
  rw [(foldl_add_call_fields calls _).2.1, foldl_add_function_mem_public]
  simp [CallGraph.new]

theorem build_mem_pns_set (d : Nat) (entries : List (String × FunctionInfo))
    (calls : List FunctionCall) (f : String) :
    f ∈ (build_call_graph d entries calls).public_non_unsafe_functions ↔
      ∃ i, (f, i) ∈ entries ∧
        (i.visibility = VisibilityKind.Public ∧ ¬ i.is_unsafe_fn = true) := by
  unfold build_call_graph
  rw [(foldl_add_call_fields calls _).2.2.2.1, foldl_add_function_pns_set]
  simp [CallGraph.new]

/-! ### Lemmas about the path predicates and conversion -/

theorem is_valid_path_spec {g : CallGraph} {q : List String}
    (h : is_valid_path g q = true) :
    1 < q.length ∧
    q.getD 0 "" ∈ g.public_non_unsafe_functions ∧
    q.getD (q.length - 1) "" ∈ g.unsafe_functions ∧
    ∀ i, 0 < i → i < q.length - 1 →
      q.getD i "" ∉ g.unsafe_functions ∧ q.getD i "" ∉ g.public_unsafe_functions := by
  unfold is_valid_path at h
  split at h
  next => simp at h
  next hlen =>
    split at h
    next => simp at h
    next h0 =>
      split at h
      next => simp at h
      next h1 =>
        rw [List.all_eq_true] at h
        refine ⟨by omega, not_not.mp h0, not_not.mp h1, ?_⟩
        intro i hi0 hi1
        have hmem : i ∈ List.range' 1 (q.length - 1 - 1) := by
          rw [List.mem_range'_1]
          omega
        have := h i hmem
        simpa using this

theorem is_minimal_path_spec {g : CallGraph} {q : List String}
    (h : is_minimal_path g q = true) :
    ∀ i, 0 < i → i < q.length → q.getD i "" ∉ g.public_functions := by
  unfold is_minimal_path at h
  rw [List.all_eq_true] at h
  intro i hi0 hi1
  have hmem : i ∈ List.range' 1 (q.length - 1) := by
    rw [List.mem_range'_1]
    omega
  have := h i hmem
  simpa using this

theorem convert_node_full_path (g : CallGraph) (s : String) :
    (convert_node g s).full_path = s := by
  unfold convert_node
  cases lookup_assoc g.functions s <;> rfl

theorem convert_path_full_paths (g : CallGraph) (q : List String) :
    (convert_path_to_node_info g q).map PathNodeInfo.full_path = q := by
  unfold convert_path_to_node_info
  rw [List.map_map]
  have hcomp : PathNodeInfo.full_path ∘ convert_node g = id :=
    funext fun s => convert_node_full_path g s
  rw [hcomp, List.map_id]

theorem convert_path_length (g : CallGraph) (q : List String) :
    (convert_path_to_node_info g q).length = q.length := by
  simp [convert_path_to_node_info]

/-- Dissect membership in the result of `find_paths_to_unsafe`: every returned
path is the conversion of a string path that survived the validity, minimality
and length filters, and that string path is either a degenerate singleton or a
result of the bounded search from some public non-unsafe-declared origin. -/
theorem mem_find_paths_elim {g : CallGraph} {p : List PathNodeInfo}
    (hp : p ∈ find_paths_to_unsafe g) :
    ∃ q, (q.length = 1 ∨
        ∃ pub_fn, pub_fn ∈ g.public_non_unsafe_functions ∧
          q ∈ find_valid_paths g pub_fn (precompute_reachable_targets g pub_fn
            (g.unsafe_functions.filter (fun f => decide (f ∉ g.public_unsafe_functions))))) ∧
      is_valid_path g q = true ∧ is_minimal_path g q = true ∧ 1 < q.length ∧
      p = convert_path_to_node_info g q := by
  unfold find_paths_to_unsafe at hp
  simp only [List.mem_map, List.mem_filter, List.mem_append, List.mem_flatMap,
    decide_eq_true_eq] at hp
  obtain ⟨q, ⟨⟨⟨hsrc, hvalid⟩, hmin⟩, hlen⟩, rfl⟩ := hp
  refine ⟨q, ?_, hvalid, hmin, hlen, rfl⟩
  rcases hsrc with ⟨f, _, hfq⟩ | ⟨pub_fn, ⟨hpub1, _⟩, hq⟩
  · exact Or.inl (by rw [← hfq]; rfl)
  · refine Or.inr ⟨pub_fn, hpub1, ?_⟩
    split at hq
    · simp at hq
    · exact hq

/-! ### Lemmas about the depth-first search -/

theorem dfs_paths_length (g : CallGraph) (targets : List String) :
    ∀ (fuel : Nat) (current : String) (visited path : List String) (depth : Nat),
      path.length = depth →
      ∀ q ∈ dfs_find_valid_paths g targets fuel current visited path depth,
        q.length ≤ g.max_search_depth + 1 := by
  intro fuel
  induction fuel with
  | zero =>
    intro current visited path depth _ q hq
    simp [dfs_find_valid_paths] at hq
  | succ n ih =>
    intro current visited path depth hpd q hq
    simp only [dfs_find_valid_paths] at hq
    split at hq
    next hd => simp at hq
    next hd =>
      split at hq
      next => simp at hq
      next =>
        split at hq
        next => simp at hq
        next =>
          split at hq
          next =>
            simp only [List.mem_singleton] at hq
            subst hq
            simp only [List.length_append, List.length_singleton]
            omega
          next =>
            rw [List.mem_flatMap] at hq
            obtain ⟨callee, _, hq'⟩ := hq
            exact ih callee (visited ++ [current]) (path ++ [current]) (depth + 1)
              (by simp [hpd]) q hq'

theorem dfs_fuel_indifferent :
    ∀ (fuelA : Nat) (g : CallGraph) (targets : List String) (fuelB : Nat)
      (current : String) (visited path : List String) (depth : Nat),
      g.max_search_depth + 1 - depth ≤ fuelA →
      g.max_search_depth + 1 - depth ≤ fuelB →
      dfs_find_valid_paths g targets fuelA current visited path depth =
        dfs_find_valid_paths g targets fuelB current visited path depth := by
  intro fuelA
  induction fuelA with
  | zero =>
    intro g targets fuelB current visited path depth hA hB
    have hd : g.max_search_depth < depth := by omega
    cases fuelB with
    | zero => rfl
    | succ m => simp [dfs_find_valid_paths, hd]
  | succ n ih =>
    intro g targets fuelB current visited path depth hA hB
    by_cases hd : g.max_search_depth < depth
    · cases fuelB with
      | zero => simp [dfs_find_valid_paths, hd]
      | succ m => simp [dfs_find_valid_paths, hd]
    · obtain ⟨m, rfl⟩ : ∃ m, fuelB = m + 1 := ⟨fuelB - 1, by omega⟩
      simp only [dfs_find_valid_paths, if_neg hd]
      by_cases hv : current ∈ visited
      · simp [hv]
      · simp only [if_neg hv]
        by_cases hint : path ≠ [] ∧ current ∉ targets ∧
            (current ∈ g.unsafe_functions ∨ current ∈ g.public_unsafe_functions)
        · simp [hint]
        · simp only [if_neg hint]
          by_cases ht : current ∈ targets
          · simp [ht]
          · simp only [if_neg ht]
            congr 1
            funext callee
            exact ih g targets m callee (visited ++ [current]) (path ++ [current])
              (depth + 1) (by omega) (by omega)

/-! ### Claim theorems for the call-graph component -/

/-- C1: evaluation of `find_paths_to_unsafe` at the failing input.  The
function `b` is public, non-unsafe-declared and internally unsafe — it lies in
both `public_unsafe_functions` and `public_non_unsafe_functions` — yet the
result is empty: the degenerate length-1 path `[b]` built by the first step of
`find_paths_to_unsafe` is subsequently discarded by the `is_valid_path` filter
(which rejects every path of length ≤ 1) and by the final `len > 1` filter. -/
theorem degenerate_paths_filtered_out :
    "b" ∈ degenerate_graph.public_unsafe_functions ∧
    "b" ∈ degenerate_graph.public_non_unsafe_functions ∧
    find_paths_to_unsafe degenerate_graph = [] := by
  refine ⟨by decide, by decide, by decide⟩

/-- C2: every path returned by `find_paths_to_unsafe` with more than one node
starts at a public non-unsafe-declared function, ends at an unsafe function,
has no unsafe or public-unsafe strict intermediate, and has no public node
other than the first. -/
theorem find_paths_valid_minimal (g : CallGraph) (p : List PathNodeInfo)
    (hp : p ∈ find_paths_to_unsafe g) (hlen : 1 < p.length) :
    (p.map PathNodeInfo.full_path).getD 0 "" ∈ g.public_non_unsafe_functions ∧
    (p.map PathNodeInfo.full_path).getD (p.length - 1) "" ∈ g.unsafe_functions ∧
    (∀ i, 0 < i → i < p.length - 1 →
      (p.map PathNodeInfo.full_path).getD i "" ∉ g.unsafe_functions ∧
      (p.map PathNodeInfo.full_path).getD i "" ∉ g.public_unsafe_functions) ∧
    (∀ i, 0 < i → i < p.length →
      (p.map PathNodeInfo.full_path).getD i "" ∉ g.public_functions) := by
  obtain ⟨q, _, hvalid, hmin, _, rfl⟩ := mem_find_paths_elim hp
  rw [convert_path_full_paths g q, convert_path_length g q]
  obtain ⟨_, h0, hlast, hint⟩ := is_valid_path_spec hvalid
  exact ⟨h0, hlast, hint, is_minimal_path_spec hmin⟩

/-- C2 witness: in scenario 1 the discovered path `[a, b]` indeed begins at the
public safe origin and ends at the unsafe sink. -/
theorem find_paths_valid_minimal_witness :
    scenario1_path ∈ find_paths_to_unsafe scenario1_graph ∧
    (scenario1_path.map PathNodeInfo.full_path).getD 0 ""
        ∈ scenario1_graph.public_non_unsafe_functions ∧
    (scenario1_path.map PathNodeInfo.full_path).getD (scenario1_path.length - 1) ""
        ∈ scenario1_graph.unsafe_functions := by
  have h := find_paths_valid_minimal scenario1_graph scenario1_path (by decide) (by decide)
  exact ⟨by decide, h.1, h.2.1⟩

/-- C3 counterexample: a `pub unsafe fn` with no internal unsafe block has
`is_unsafe_fn = true`, so the claimed disjunction holds of it, yet the
function is absent from the graph's `unsafe_functions` set —
`CallGraph::add_function` inserts into that set only on `has_internal_unsafe`. -/
theorem graph_unsafe_set_ignores_signature :
    FunctionInfo.is_unsafe_fn (fn_info "f" VisibilityKind.Public true false "pub unsafe fn f")
        = true ∧
    FunctionInfo.has_internal_unsafe
        (fn_info "f" VisibilityKind.Public true false "pub unsafe fn f") = false ∧
    "f" ∉ sig_only_graph.unsafe_functions := by
  refine ⟨rfl, rfl, by decide⟩

/-- C3 (amended): a function is in the graph's `unsafe_functions` set exactly
when some recorded entry for it has `has_internal_unsafe` set; the
`is_unsafe_fn` signature flag plays no role in this set (it is consulted only
for the visitor-local `unsafe_functions` set and for
`public_non_unsafe_functions`). -/
theorem build_unsafe_functions_iff_internal (d : Nat)
    (entries : List (String × FunctionInfo)) (calls : List FunctionCall) (f : String) :
    f ∈ (build_call_graph d entries calls).unsafe_functions ↔
      ∃ i, (f, i) ∈ entries ∧ FunctionInfo.has_internal_unsafe i = true :=
  build_mem_unsafe_functions d entries calls f

/-- C4: a function recorded only as public and unsafe-declared never occurs on
any path returned by `find_paths_to_unsafe` — in no position at all. -/
theorem pub_unsafe_decl_never_on_path (max_depth : Nat)
    (entries : List (String × FunctionInfo)) (calls : List FunctionCall) (f : String)
    (hex : ∃ i, (f, i) ∈ entries)
    (hall : ∀ i, (f, i) ∈ entries →
      i.visibility = VisibilityKind.Public ∧ i.is_unsafe_fn = true)
    (p : List PathNodeInfo)
    (hp : p ∈ find_paths_to_unsafe (build_call_graph max_depth entries calls)) :
    ∀ node ∈ p, PathNodeInfo.full_path node ≠ f := by
  intro node hnode heq
  obtain ⟨i0, hi0⟩ := hex
  have hpubf : f ∈ (build_call_graph max_depth entries calls).public_functions :=
    (build_mem_public_functions max_depth entries calls f).mpr
      ⟨i0, hi0, (hall i0 hi0).1⟩
  have hnpns : f ∉ (build_call_graph max_depth entries calls).public_non_unsafe_functions := by
    rw [build_mem_pns_set]
    rintro ⟨j, hj, _, hnsafe⟩
    exact hnsafe (hall j hj).2
  obtain ⟨q, _, hvalid, hmin, _, rfl⟩ := mem_find_paths_elim hp
  have hfq : f ∈ q := by
    rw [← convert_path_full_paths (build_call_graph max_depth entries calls) q, ← heq]
    exact List.mem_map_of_mem _ hnode
  obtain ⟨n, hn, hqn⟩ := List.mem_iff_getElem.mp hfq
  have hgetD : q.getD n "" = f := by rw [List.getD_eq_getElem q "" hn, hqn]
  obtain ⟨hqlen, h0, _, _⟩ := is_valid_path_spec hvalid
  rcases Nat.eq_zero_or_pos n with rfl | hpos
  · rw [hgetD] at h0
    exact hnpns h0
  · exact is_minimal_path_spec hmin n hpos hn (hgetD ▸ hpubf)

/-- C4 witness: in scenario 4 the path `[a, b]` is discovered and its origin
node is not the excluded `pub unsafe fn g`. -/
theorem pub_unsafe_decl_never_on_path_witness :
    scenario4_path ∈ find_paths_to_unsafe scenario4_graph ∧
    PathNodeInfo.full_path scenario4_node_a ≠ "g" := by
  refine ⟨by decide, ?_⟩
  refine pub_unsafe_decl_never_on_path 20 scenario4_entries scenario4_calls "g"
    ⟨info_g, by decide⟩ ?_ scenario4_path (by decide) scenario4_node_a (by decide)
  intro i hi
  simp only [scenario4_entries, List.mem_cons, Prod.mk.injEq,
    List.not_mem_nil, or_false] at hi
  rcases hi with ⟨_, rfl⟩ | ⟨hga, _⟩ | ⟨hgb, _⟩
  · exact ⟨rfl, rfl⟩
  · exact absurd hga (by decide)
  · exact absurd hgb (by decide)

/-- C5: the bounded depth-first search is insensitive to any fuel at least
`max_search_depth + 1 - depth`, i.e. the search is determined after finitely
many steps on every graph (the recursion is cut off by the depth check alone);
and on the cyclic graph `a -> b -> a` with `a` public-safe and no unsafe code
anywhere, `find_paths_to_unsafe` terminates with zero paths. -/
theorem search_terminates_and_cycle_yields_none :
    (∀ (g : CallGraph) (targets : List String) (current : String)
        (visited path : List String) (depth fuelA fuelB : Nat),
        g.max_search_depth + 1 - depth ≤ fuelA →
        g.max_search_depth + 1 - depth ≤ fuelB →
        dfs_find_valid_paths g targets fuelA current visited path depth =
          dfs_find_valid_paths g targets fuelB current visited path depth) ∧
    find_paths_to_unsafe cyclic_graph = [] :=
  ⟨fun g targets current visited path depth fuelA fuelB hA hB =>
    dfs_fuel_indifferent fuelA g targets fuelB current visited path depth hA hB,
   by decide⟩

/-- C5 witness: concrete instance of the fuel-indifference statement on the
cyclic graph, together with its empty search result. -/
theorem search_terminates_and_cycle_yields_none_witness :
    dfs_find_valid_paths cyclic_graph ["z"] 21 "a" [] [] 0 =
      dfs_find_valid_paths cyclic_graph ["z"] 25 "a" [] [] 0 ∧
    find_paths_to_unsafe cyclic_graph = [] :=
  ⟨search_terminates_and_cycle_yields_none.1 cyclic_graph ["z"] "a" [] [] 0 21 25
      (by decide) (by decide),
   search_terminates_and_cycle_yields_none.2⟩

/-- C10: every path returned by `find_paths_to_unsafe` has at most
`max_search_depth + 1` nodes: the depth-first search abandons branches beyond
the depth bound, and a node's depth counter equals its index in the path. -/
theorem found_paths_within_depth_bound (g : CallGraph) (p : List PathNodeInfo)
    (hp : p ∈ find_paths_to_unsafe g) :
    p.length ≤ g.max_search_depth + 1 := by
  obtain ⟨q, hsrc, _, _, _, rfl⟩ := mem_find_paths_elim hp
  rw [convert_path_length]
  rcases hsrc with h1 | ⟨pub_fn, _, hq⟩
  · omega
  · exact dfs_paths_length g _ (g.max_search_depth + 1) pub_fn [] [] 0 rfl q hq

/-- C10 witness: the scenario 1 path is returned and respects the bound. -/
theorem found_paths_within_depth_bound_witness :
    scenario1_path ∈ find_paths_to_unsafe scenario1_graph ∧
    scenario1_path.length ≤ scenario1_graph.max_search_depth + 1 :=
  ⟨by decide,
   found_paths_within_depth_bound scenario1_graph scenario1_path (by decide)⟩

/-! ### Claim theorems for the visitors -/

/-- C6: evaluation at the failing input.  Inside an unsafe block the
dereference of the safe reborrow idiom `&*ptr` is recorded as a
RawPointerDereference operation: the exclusion guard tests whether the token
text of the unary expression itself starts with `& *`, but that text always
starts with `*`, so the guard never fires.  The second conjunct confirms the
true part of the claim at the same input: outside an unsafe block the
dereference is not recorded. -/
theorem reborrow_deref_recorded :
    (fv_visit_expr c6_state c6_body).current_unsafe_operations =
      [⟨UnsafeOperationType.RawPointerDereference, "裸指针操作", "* ptr", none⟩] ∧
    (fv_visit_expr c6_state
        (RExpr.unary true (RExpr.path false ["ptr"]))).current_unsafe_operations = [] := by
  refine ⟨by decide, by decide⟩

mutual
theorem cv_visit_expr_calls_mono (s : CVState) (e : RExpr) :
    ∃ t, (cv_visit_expr s e).calls = s.calls ++ t := by
  cases e with
  | path leading segments => exact ⟨[], by simp [cv_visit_expr]⟩
  | lit text => exact ⟨[], by simp [cv_visit_expr]⟩
  | cast e p ty => simpa [cv_visit_expr] using cv_visit_expr_calls_mono s e
  | reference e => simpa [cv_visit_expr] using cv_visit_expr_calls_mono s e
  | unary d e => simpa [cv_visit_expr] using cv_visit_expr_calls_mono s e
  | unsafe_block body => simpa [cv_visit_expr] using cv_visit_list_calls_mono s body
  | fcall func args =>
    have haux : ∀ s1 : CVState, s1.current_module_path = s.current_module_path →
        (∃ t0, s1.calls = s.calls ++ t0) →
        ∃ t, (cv_visit_list s1 args).calls = s.calls ++ t := by
      rintro s1 _ ⟨t0, h0⟩
      obtain ⟨t1, h1⟩ := cv_visit_list_calls_mono s1 args
      exact ⟨t0 ++ t1, by rw [h1, h0, List.append_assoc]⟩
    cases func with
    | path leading segments =>
      show ∃ t, (cv_visit_list (handle_call s leading segments) args).calls = s.calls ++ t
      unfold handle_call
      cases hc : s.current_function with
      | none => exact haux s rfl ⟨[], by simp⟩
      | some caller => exact haux _ rfl ⟨[⟨caller, resolve_path s leading segments⟩], rfl⟩
    | cast e p ty => exact haux s rfl ⟨[], by simp⟩
    | unary d e => exact haux s rfl ⟨[], by simp⟩
    | reference e => exact haux s rfl ⟨[], by simp⟩
    | mcall receiver method margs => exact haux s rfl ⟨[], by simp⟩
    | fcall f fargs => exact haux s rfl ⟨[], by simp⟩
    | unsafe_block body => exact haux s rfl ⟨[], by simp⟩
    | lit text => exact haux s rfl ⟨[], by simp⟩
  | mcall receiver method args =>
    have hs1 : ∃ t0, (match s.current_function with
        | some caller =>
          { s with calls := s.calls ++ [⟨caller,
              if get_current_module_path s == "" then method
              else get_current_module_path s ++ "::" ++ method⟩] }
        | none => s : CVState).calls = s.calls ++ t0 := by
      cases s.current_function with
      | none => exact ⟨[], by simp⟩
      | some caller => exact ⟨_, rfl⟩
    obtain ⟨t0, h0⟩ := hs1
    obtain ⟨t1, h1⟩ := cv_visit_expr_calls_mono (match s.current_function with
      | some caller =>
        { s with calls := s.calls ++ [⟨caller,
            if get_current_module_path s == "" then method
            else get_current_module_path s ++ "::" ++ method⟩] }
      | none => s) receiver
    obtain ⟨t2, h2⟩ := cv_visit_list_calls_mono _ args
    refine ⟨t0 ++ (t1 ++ t2), ?_⟩
    show (cv_visit_list _ args).calls = _
    rw [h2, h1, h0]
    simp [List.append_assoc]
theorem cv_visit_list_calls_mono (s : CVState) (l : RExprList) :
    ∃ t, (cv_visit_list s l).calls = s.calls ++ t := by
  cases l with
  | nil => exact ⟨[], by simp [cv_visit_list]⟩
  | cons e rest =>
    obtain ⟨t1, h1⟩ := cv_visit_expr_calls_mono s e
    obtain ⟨t2, h2⟩ := cv_visit_list_calls_mono (cv_visit_expr s e) rest
    refine ⟨t1 ++ t2, ?_⟩
    show (cv_visit_list (cv_visit_expr s e) rest).calls = _
    rw [h2, h1, List.append_assoc]
end

/-- C8: visiting a method-call expression with a current function `c` emits
exactly one call edge for the expression itself — caller `c`, callee
`<current module path>::<method name>` (just the method name when the module
path is empty) — followed only by the edges of the receiver's and arguments'
own sub-visits; the emitted edge does not depend on the receiver. -/
theorem method_call_single_edge (s : CVState) (c : String)
    (h : s.current_function = some c) (receiver : RExpr) (method : String)
    (args : RExprList) :
    ∃ rest, (cv_visit_expr s (RExpr.mcall receiver method args)).calls =
      s.calls ++ ⟨c, if get_current_module_path s == "" then method
        else get_current_module_path s ++ "::" ++ method⟩ :: rest := by
  have hstep : cv_visit_expr s (RExpr.mcall receiver method args) =
      cv_visit_list (cv_visit_expr
        { s with calls := s.calls ++ [⟨c,
            if get_current_module_path s == "" then method
            else get_current_module_path s ++ "::" ++ method⟩] } receiver) args := by
    simp only [cv_visit_expr, h]
  obtain ⟨t1, h1⟩ := cv_visit_expr_calls_mono
    { s with calls := s.calls ++ [⟨c,
        if get_current_module_path s == "" then method
        else get_current_module_path s ++ "::" ++ method⟩] } receiver
  obtain ⟨t2, h2⟩ := cv_visit_list_calls_mono _ args
  refine ⟨t1 ++ t2, ?_⟩
  rw [hstep, h2, h1]
  simp [List.append_assoc]

/-- C8 witness: in module `mymod`, inside `mymod::f`, the method call `x.m()`
emits the edge `(mymod::f, mymod::m)`. -/
theorem method_call_single_edge_witness :
    (cv_visit_expr cv_state0
        (RExpr.mcall (RExpr.path false ["x"]) "m" RExprList.nil)).calls.head?
      = some ⟨"mymod::f", "mymod::m"⟩ := by
  obtain ⟨rest, hr⟩ := method_call_single_edge cv_state0 "mymod::f" rfl
    (RExpr.path false ["x"]) "m" RExprList.nil
  rw [hr]
  rfl

/-! ### Token-content lemmas for the beautifier -/

theorem tokens_append (a b : List Char) :
    tokens_chars (a ++ b) = tokens_chars a ++ tokens_chars b := by
  simp [tokens_chars]

theorem tokens_nil : tokens_chars [] = [] := rfl

theorem tokens_cons (c : Char) (l : List Char) :
    tokens_chars (c :: l) = (if c.isWhitespace then [] else [c]) ++ tokens_chars l := by
  by_cases hc : c.isWhitespace <;> simp [tokens_chars, List.filter_cons, hc]

theorem ws_newline : newline_char.isWhitespace = true := by decide

theorem ws_space : (' ' : Char).isWhitespace = true := by decide

theorem tokens_newline : tokens_chars [newline_char] = [] := by decide

theorem tokens_spaces (n : Nat) : tokens_chars (List.replicate n ' ') = [] := by
  induction n with
  | zero => rfl
  | succ m ih => simpa [List.replicate_succ, tokens_cons, ws_space] using ih

theorem tokens_indent (n : Nat) :
    tokens_chars ((List.replicate n "    ".data).flatten) = [] := by
  induction n with
  | zero => rfl
  | succ m ih =>
    simp only [List.replicate_succ, List.flatten_cons, tokens_append, ih]
    decide

theorem tokens_dropWhile_ws (l : List Char) :
    tokens_chars (l.dropWhile Char.isWhitespace) = tokens_chars l := by
  induction l with
  | nil => rfl
  | cons c rest ih =>
    by_cases hc : Char.isWhitespace c
    · rw [List.dropWhile_cons_of_pos (by simpa using hc), ih]
      simp [tokens_chars, List.filter_cons, hc]
    · rw [List.dropWhile_cons_of_neg (by simpa using hc)]

theorem tokens_reverse (l : List Char) :
    tokens_chars l.reverse = (tokens_chars l).reverse := by
  simp [tokens_chars, List.filter_reverse]

theorem tokens_trim (l : List Char) : tokens_chars (trim_chars l) = tokens_chars l := by
  unfold trim_chars
  rw [tokens_reverse, tokens_dropWhile_ws, tokens_reverse, List.reverse_reverse,
    tokens_dropWhile_ws]

theorem tokens_of_trim_empty {l : List Char}
    (h : (trim_chars l).isEmpty = true) : tokens_chars l = [] := by
  rw [← tokens_trim l, List.isEmpty_iff.mp h]
  rfl

theorem tokens_of_trim_nil {l : List Char}
    (h : trim_chars l = []) : tokens_chars l = [] := by
  rw [← tokens_trim l, h]
  rfl

theorem rust_lines_aux_tokens (s : List Char) :
    ∀ acc, ((rust_lines_aux s acc).map tokens_chars).flatten
      = tokens_chars acc ++ tokens_chars s := by
  induction s with
  | nil =>
    intro acc
    unfold rust_lines_aux
    split
    next h => simp [List.isEmpty_iff.mp h, tokens_chars]
    next => simp [tokens_chars]
  | cons c rest ih =>
    intro acc
    unfold rust_lines_aux
    split
    next hc =>
      have hcn : c = newline_char := by simpa using hc
      rw [List.map_cons, List.flatten_cons, ih []]
      rw [tokens_cons c rest, hcn]
      simp [tokens_nil, ws_newline]
    next =>
      rw [ih (acc ++ [c]), tokens_append, tokens_cons c rest]
      simp [tokens_cons, tokens_nil, List.append_assoc]

theorem rust_lines_tokens (s : List Char) :
    ((rust_lines s).map tokens_chars).flatten = tokens_chars s := by
  simpa [tokens_chars] using rust_lines_aux_tokens s []

theorem fsll_step_tokens (st : LineFmtState) (ch : Char) :
    tokens_chars ((format_single_long_line_step st ch).result ++
        (format_single_long_line_step st ch).current_line)
      = tokens_chars (st.result ++ st.current_line) ++ tokens_chars [ch] := by
  have hqo : (quote_char = open_brace) = False := by decide
  have hqc : (quote_char = close_brace) = False := by decide
  have hqs : (quote_char = ';') = False := by decide
  have nws1 : quote_char.isWhitespace = false := by decide
  have nws2 : open_brace.isWhitespace = false := by decide
  have nws3 : close_brace.isWhitespace = false := by decide
  have nws4 : (';' : Char).isWhitespace = false := by decide
  obtain ⟨res, ind, instr, line⟩ := st
  unfold format_single_long_line_step
  cases instr <;>
    split_ifs <;>
      simp_all [tokens_append, tokens_cons, tokens_newline, tokens_spaces, tokens_nil,
        tokens_of_trim_empty, tokens_of_trim_nil, ws_newline, ws_space, List.append_assoc]

theorem fsll_fold_tokens (cs : List Char) :
    ∀ st : LineFmtState,
      tokens_chars ((cs.foldl format_single_long_line_step st).result ++
        (cs.foldl format_single_long_line_step st).current_line)
      = tokens_chars (st.result ++ st.current_line) ++ tokens_chars cs := by
  induction cs with
  | nil => intro st; simp [tokens_chars]
  | cons c rest ih =>
    intro st
    rw [List.foldl_cons, ih, fsll_step_tokens, tokens_cons c rest]
    simp [tokens_cons, tokens_nil, List.append_assoc]

theorem fsll_tokens (line : List Char) :
    tokens_chars (format_single_long_line line) = tokens_chars line := by
  have h := fsll_fold_tokens line ⟨[], 0, false, []⟩
  unfold format_single_long_line
  split
  next hemp =>
    have hline : tokens_chars (line.foldl format_single_long_line_step
        ⟨[], 0, false, []⟩).current_line = [] := tokens_of_trim_empty hemp
    rw [tokens_append, hline, List.append_nil] at h
    simpa [tokens_nil] using h
  next =>
    simpa [tokens_nil] using h

theorem tokens_indent_text (indent_level : Nat) (trimmed : List Char) :
    tokens_chars (enh_indent_text indent_level trimmed) = [] := by
  unfold enh_indent_text
  split
  next => rfl
  next => exact tokens_indent _

theorem enh_step_tokens (st : EnhFmtState) (line : List Char) :
    tokens_chars ((enh_line_step st line).result)
      = tokens_chars st.result ++ tokens_chars line := by
  obtain ⟨res, ind, wc, hcon⟩ := st
  unfold enh_line_step
  by_cases hpref : List.isPrefixOf "/*".data (trim_chars line) = true <;>
    by_cases hemp : (trim_chars line).isEmpty = true <;>
      cases wc <;> cases hcon <;>
        simp_all [tokens_append, tokens_newline, tokens_nil, tokens_indent_text,
          tokens_trim, tokens_of_trim_empty, List.append_assoc]

theorem enh_fold_tokens (lines : List (List Char)) :
    ∀ st : EnhFmtState,
      tokens_chars ((lines.foldl enh_line_step st).result)
        = tokens_chars st.result ++ (lines.map tokens_chars).flatten := by
  induction lines with
  | nil => intro st; simp
  | cons line rest ih =>
    intro st
    rw [List.foldl_cons, ih, enh_step_tokens]
    simp

theorem enhanced_tokens (s : List Char) :
    tokens_chars (enhanced_format_source_code s)
      = tokens_chars (ensure_complete_function s) := by
  unfold enhanced_format_source_code
  split
  next hone =>
    obtain ⟨l0, hl0⟩ := List.length_eq_one.mp hone.1
    rw [fsll_tokens, ← rust_lines_tokens (ensure_complete_function s), hl0]
    simp
  next =>
    split
    next => rfl
    next =>
      rw [enh_fold_tokens]
      simpa [tokens_nil] using rust_lines_tokens (ensure_complete_function s)

theorem ensure_complete_id {s : List Char}
    (hbal : s.countP (fun c => c == open_brace) ≤ s.countP (fun c => c == close_brace)) :
    ensure_complete_function s = s := by
  unfold ensure_complete_function
  rw [if_neg (by omega)]

/-! ### Claim theorems for the beautifier and the pre-filter -/

/-- C7 counterexample: the well-formatted input
`fn f() { // note { … }` (a brace inside a line comment) is not returned
whitespace-equivalent — `ensure_complete_function` counts the commented `{`
and appends a spurious closing brace, changing the token sequence. -/
theorem beautifier_changes_tokens :
    tokens_chars (beautify_source_code id c7_input.data) ≠ tokens_chars c7_input.data := by
  decide

/-- C7 (amended): for input containing a comment marker (the branch formatted
in-repository; comment-free input is delegated to the external `prettyplease`)
whose naive `{` count — string-literal and comment contents included — does
not exceed its `}` count, the beautifier returns whitespace-equivalent text:
the token sequence is unchanged. -/
theorem beautify_token_preserving (pretty : List Char → List Char) (s : List Char)
    (hc : (contains_chars s "//".data || contains_chars s "/*".data) = true)
    (hbal : s.countP (fun c => c == open_brace) ≤ s.countP (fun c => c == close_brace)) :
    tokens_chars (beautify_source_code pretty s) = tokens_chars s := by
  unfold beautify_source_code
  rw [if_pos hc, enhanced_tokens, ensure_complete_id hbal]

/-- C7 witness: a balanced, commented, well-formatted function round-trips. -/
theorem beautify_token_preserving_witness :
    (contains_chars c7_balanced_input.data "//".data ||
      contains_chars c7_balanced_input.data "/*".data) = true ∧
    tokens_chars (beautify_source_code id c7_balanced_input.data)
      = tokens_chars c7_balanced_input.data :=
  ⟨by decide, beautify_token_preserving id c7_balanced_input.data (by decide) (by decide)⟩

/-- C9: when the file exceeds the size limit, or its text lacks the substring
`unsafe` or the substring `pub fn`, `analyze_file` returns no result — for
every possible downstream parser/visitor pipeline, showing the pipeline is
never consulted. -/
theorem analyze_file_skips (α : Type) (file_size_limit : Nat)
    (parse_and_analyze : List Char → Option α) (file_size : Nat) (content : List Char)
    (h : file_size_limit < file_size ∨
      ¬ "unsafe".data <:+: content ∨ ¬ "pub fn".data <:+: content) :
    analyze_file file_size_limit parse_and_analyze file_size content = none := by
  have hfalse : should_analyze_file file_size_limit file_size content = false := by
    unfold should_analyze_file
    by_cases hs : file_size_limit < file_size
    · rw [if_pos hs]
    · rw [if_neg hs]
      rcases h with h | h | h
      · exact absurd h hs
      · rw [if_pos (Or.inl (by simpa [contains_chars] using h))]
      · rw [if_pos (Or.inr (by simpa [contains_chars] using h))]
  unfold analyze_file
  rw [if_pos hfalse]

/-- C9 witness: an oversized file and a file missing the `unsafe` marker are
both skipped. -/
theorem analyze_file_skips_witness :
    analyze_file 10 (fun _ => some (1 : Nat)) 99 "unsafe pub fn".data = none ∧
    analyze_file 10 (fun _ => some (2 : Nat)) 5 "pub fn f".data = none :=
  ⟨analyze_file_skips Nat 10 (fun _ => some 1) 99 "unsafe pub fn".data
      (Or.inl (by decide)),
   analyze_file_skips Nat 10 (fun _ => some 2) 5 "pub fn f".data
      (Or.inr (Or.inl (by decide)))⟩
